import Mathlib

/-!
Verification development for the reference-conversion component
(src/src/ConvertReferences.tsx of sanity-convert-references).

The JSON-like document trees, the recursive reference finder
(findReferences), the scan aggregation (scanForReferences), the batched
conversion pipeline (convertReferences) and the byte formatter
(formatBytes) are embedded below as executable Lean definitions that
mirror the TypeScript source line by line.  External collaborators
(the document store fetch and the patch/commit transport) are passed in
as explicit parameters, respectively modelled from the spec where the
source only calls into them.
-/

/-- A JSON-like value: the document trees the component traverses. -/
inductive Value where
  | vnull
  | vbool (b : Bool)
  | vnum (n : Int)
  | vstr (s : String)
  | varr (elems : List Value)
  | vobj (fields : List (String × Value))
deriving Repr

/-- JavaScript truthiness of a value, as used by the bare-object
tests of the source such as value._ref and value._weak. -/
def truthy : Value → Bool
  | .vnull => false
  | .vbool b => b
  | .vnum n => n != 0
  | .vstr s => s != ""
  | .varr _ => true
  | .vobj _ => true

/-- Property access obj[key]: the first binding of key in the field
list, none when the key is absent (JavaScript undefined). -/
def lookupField : List (String × Value) → String → Option Value
  | [], _ => none
  | (k, v) :: rest, key => if k = key then some v else lookupField rest key

/-- The test of the source, value and typeof value === object, true exactly
for arrays and plain objects. -/
def isObjLike : Value → Bool
  | .varr _ => true
  | .vobj _ => true
  | _ => false

/-- Strict equality of a looked-up property with the string literal
"reference", as in value._type === "reference". -/
def typeTagIsRef : Option Value → Bool
  | some (.vstr t) => t = "reference"
  | _ => false

/-- Truthiness of a looked-up property (undefined is falsy). -/
def truthyOpt : Option Value → Bool
  | some r => truthy r
  | none => false

/-- The reference-descriptor test of the source,
value._type === "reference" && value._ref. -/
def isRefDesc (v : Value) : Bool :=
  match v with
  | .vobj fs => typeTagIsRef (lookupField fs "_type") && truthyOpt (lookupField fs "_ref")
  | _ => false

/-- value._ref, the target id stored in an occurrence (vnull stands for
the unreachable undefined case, isRefDesc guarantees presence). -/
def refOf (v : Value) : Value :=
  match v with
  | .vobj fs => (lookupField fs "_ref").getD .vnull
  | _ => .vnull

/-- value._weak || false, the weak marker read off a descriptor. -/
def weakOf (v : Value) : Bool :=
  match v with
  | .vobj fs => truthyOpt (lookupField fs "_weak")
  | _ => false

/-- One step of a document path: an object key or an array index. -/
inductive Seg where
  | fld (k : String)
  | idx (i : Nat)
deriving Repr, DecidableEq

/-- Renders path segments onto a string exactly the way the source
builds its path strings incrementally: an index appends [i], a key
appends .key unless the string so far is empty. -/
def pathApp (s : String) : List Seg → String
  | [] => s
  | .fld k :: rest => pathApp (if s = "" then k else s ++ "." ++ k) rest
  | .idx i :: rest => pathApp (s ++ "[" ++ toString i ++ "]") rest

/-- A reference occurrence as pushed by findReferences: the rendered
path string, the kind tag, the target id and the weak flag, exactly the
object literal of the source.  The segs field is model instrumentation:
the same path kept as segments, used to state what the external patch
transport does with the path string. -/
structure Occ where
  path : String
  type : String
  ref : Value
  weak : Bool
  segs : List Seg
deriving Repr

/-- The conversionType state: strong-to-weak or weak-to-strong. -/
inductive Mode where
  | strongToWeak
  | weakToStrong
deriving Repr, DecidableEq

mutual

/-- The recursive reference finder, mirroring findReferences of the
source: scalars and null yield nothing; arrays recurse with [i]
appended; objects check each field value, emitting a strong occurrence
in strong-to-weak mode for any reference descriptor, a weak occurrence
in weak-to-strong mode for a weak descriptor, and recursing otherwise. -/
def findReferences : Value → Mode → String → List Seg → List Occ
  | .varr elems, mode, path, segs => findRefsArr elems mode path segs 0
  | .vobj fields, mode, path, segs => findRefsFields fields mode path segs
  | _, _, _, _ => []

/-- The array branch: obj.forEach((item, index) => recurse). -/
def findRefsArr : List Value → Mode → String → List Seg → Nat → List Occ
  | [], _, _, _, _ => []
  | item :: rest, mode, path, segs, i =>
      findReferences item mode (path ++ "[" ++ toString i ++ "]") (segs ++ [Seg.idx i])
        ++ findRefsArr rest mode path segs (i + 1)

/-- The object branch: Object.keys(obj).forEach(key => ...). -/
def findRefsFields : List (String × Value) → Mode → String → List Seg → List Occ
  | [], _, _, _ => []
  | (key, value) :: rest, mode, path, segs =>
      (let currentPath := if path = "" then key else path ++ "." ++ key
       let curSegs := segs ++ [Seg.fld key]
       if isObjLike value then
         if mode = Mode.strongToWeak && isRefDesc value then
           [⟨currentPath, "strong", refOf value, weakOf value, curSegs⟩]
         else if mode = Mode.weakToStrong && isRefDesc value && weakOf value then
           [⟨currentPath, "weak", refOf value, true, curSegs⟩]
         else findReferences value mode currentPath curSegs
       else [])
      ++ findRefsFields rest mode path segs

end

mutual

/-- A value whose traversal emits no occurrence in either mode: no
object field anywhere in it holds a reference descriptor. -/
def refFree : Value → Bool
  | .varr elems => refFreeArr elems
  | .vobj fields => refFreeFields fields
  | _ => true

/-- refFree over array elements. -/
def refFreeArr : List Value → Bool
  | [] => true
  | v :: vs => refFree v && refFreeArr vs

/-- refFree over object fields: no field value is a descriptor and
every field value is itself refFree. -/
def refFreeFields : List (String × Value) → Bool
  | [] => true
  | (_, v) :: rest => !isRefDesc v && refFree v && refFreeFields rest

end

mutual

/-- Modelled from the spec: PatchBuilder.set(fieldPath, value) applies
a field-level mutation at the given path of one document (section 6 of
the spec; the transport itself is an external collaborator, the source
only builds the call).  Setting at an existing path replaces the value
there; a path that does not exist in the document leaves it unchanged
(the pipeline only ever patches paths the finder returned). -/
def setAt : Value → List Seg → Value → Value
  | _, [], nv => nv
  | .vobj fields, .fld k :: rest, nv => .vobj (setAtFields fields k rest nv)
  | .varr elems, .idx i :: rest, nv => .varr (setAtArr elems i rest nv)
  | v, _, _ => v

/-- setAt on the fields of an object: rewrites the bindings of key k. -/
def setAtFields : List (String × Value) → String → List Seg → Value → List (String × Value)
  | [], _, _, _ => []
  | (k, v) :: restF, key, rest, nv =>
      if k = key then (k, setAt v rest nv) :: setAtFields restF key rest nv
      else (k, v) :: setAtFields restF key rest nv

/-- setAt on the elements of an array: rewrites position i. -/
def setAtArr : List Value → Nat → List Seg → Value → List Value
  | [], _, _, _ => []
  | v :: vs, 0, rest, nv => setAt v rest nv :: vs
  | v :: vs, i + 1, rest, nv => v :: setAtArr vs i rest nv

end

/-- A strong reference descriptor with target id targetId, the shape
the weak-to-strong patch writes: _type reference, _ref, no _weak. -/
def strongDesc (targetId : String) : Value :=
  .vobj [("_type", .vstr "reference"), ("_ref", .vstr targetId)]

/-- A weak reference descriptor with target id targetId, the shape the
strong-to-weak patch writes: _type reference, _ref, _weak true. -/
def weakDesc (targetId : String) : Value :=
  .vobj [("_type", .vstr "reference"), ("_ref", .vstr targetId), ("_weak", .vbool true)]

/-- One entry of refsToConvert as pushed by scanForReferences:
document, references, refCount. -/
structure RefGroup where
  document : Value
  references : List Occ
  refCount : Nat
deriving Repr

/-- What a scan run produced: the queries passed to client.fetch, the
aggregated groups (the strongRefs state), and the message given to
onError when the fetch failed. -/
structure ScanOut where
  fetchCalls : List String
  groups : List RefGroup
  scanError : Option String
deriving Repr

/-- The query string scanForReferences builds: the custom GROQ query
when enabled and nonempty, else the templated filter query with the
maxDocuments cap interpolated. -/
def buildQuery (useCustomQuery : Bool) (customGroqQuery selectedType searchQuery : String)
    (maxDocuments : Int) : String :=
  if useCustomQuery && customGroqQuery != "" then customGroqQuery
  else
    let typeFilter := if selectedType != "" then "_type == \"" ++ selectedType ++ "\"" else "defined(_type)"
    let searchFilter :=
      if searchQuery != "" then
        " && (title match \"*" ++ searchQuery ++ "*\" || name match \"*" ++ searchQuery ++ "*\")"
      else ""
    "*[" ++ typeFilter ++ searchFilter ++ "][0..." ++ toString maxDocuments ++ "]"

/-- scanForReferences: build one query, issue one fetch, run the finder
over every returned document and keep the documents with at least one
occurrence.  fetch is the external store collaborator. -/
def scanForReferences (fetch : String → Except String (List Value)) (useCustomQuery : Bool)
    (customGroqQuery selectedType searchQuery : String) (maxDocuments : Int) (mode : Mode) : ScanOut :=
  let query := buildQuery useCustomQuery customGroqQuery selectedType searchQuery maxDocuments
  match fetch query with
  | .error e => ⟨[query], [], some e⟩
  | .ok docs =>
      ⟨[query],
        docs.filterMap (fun doc =>
          let refs := findReferences doc mode "" []
          if refs.length > 0 then some ⟨doc, refs, refs.length⟩ else none),
        none⟩

/-- The patch value convertReferences builds for one occurrence:
strong-to-weak writes the descriptor with _weak true, weak-to-strong
writes it with the _weak property omitted. -/
def patchValue (mode : Mode) (r : Occ) : Value :=
  match mode with
  | .strongToWeak => .vobj [("_type", .vstr "reference"), ("_ref", r.ref), ("_weak", .vbool true)]
  | .weakToStrong => .vobj [("_type", .vstr "reference"), ("_ref", r.ref)]

/-- JavaScript string conversion of the _id value as interpolated into
the failure message (claims only exercise string ids; an array id would
comma-join its elements in the source, rendered here as empty). -/
def jsShow : Value → String
  | .vnull => "null"
  | .vbool b => if b then "true" else "false"
  | .vnum n => toString n
  | .vstr s => s
  | .varr _ => ""
  | .vobj _ => "[object Object]"

/-- doc._id as a string: the id passed to client.patch and interpolated
into the failure message (undefined when the field is missing). -/
def idOf (doc : Value) : String :=
  match doc with
  | .vobj fs =>
      (match lookupField fs "_id" with
        | some v => jsShow v
        | none => "undefined")
  | _ => "undefined"

/-- The result object convertReferences hands to onComplete. -/
structure ConversionResult where
  converted : Nat
  errors : List String
  spaceSaved : Nat
deriving Repr, DecidableEq

/-- The mutable accumulators of one conversion run, plus the trace of
commit calls (document id with the list of path-value pairs set on its
patch builder) issued against the store collaborator. -/
structure RunState where
  converted : Nat
  errors : List String
  spaceSaved : Nat
  commits : List (String × List (String × Value))
deriving Repr

/-- The body of the inner per-document loop of convertReferences.
outcome models the external commit: none is success, some e is a
commit rejection with error message e.  On dry run nothing is
submitted; otherwise the patches are built and committed, a failure
appending the formatted message and converting nothing. -/
def processItem (mode : Mode) (dryRun : Bool) (outcome : String → Option String)
    (st : RunState) (g : RefGroup) : RunState :=
  let saved := if mode = Mode.strongToWeak then g.references.length * 20 else 0
  if dryRun then
    ⟨st.converted + 1, st.errors, st.spaceSaved + saved, st.commits⟩
  else
    let docId := idOf g.document
    let patches := g.references.map (fun r => (r.path, patchValue mode r))
    match outcome docId with
    | none =>
        ⟨st.converted + 1, st.errors, st.spaceSaved + saved, st.commits ++ [(docId, patches)]⟩
    | some e =>
        ⟨st.converted, st.errors ++ ["Failed to convert " ++ docId ++ ": " ++ e],
          st.spaceSaved, st.commits ++ [(docId, patches)]⟩

/-- The per-batch inner loop: for (const item of batch). -/
def processBatch (mode : Mode) (dryRun : Bool) (outcome : String → Option String)
    (st : RunState) (batch : List RefGroup) : RunState :=
  batch.foldl (processItem mode dryRun outcome) st

/-- The progress message set after each batch. -/
def progressMsg (dryRun : Bool) (converted total : Nat) : String :=
  (if dryRun then "Would convert" else "Converted") ++ " " ++ toString converted ++ "/"
    ++ toString total ++ " documents..."

/-- The outer batch loop of convertReferences: process each batch in
order, then report progress. -/
def runBatches (mode : Mode) (dryRun : Bool) (outcome : String → Option String) (total : Nat) :
    RunState × List String → List (List RefGroup) → RunState × List String
  | (st, msgs), [] => (st, msgs)
  | (st, msgs), b :: bs =>
      let st1 := processBatch mode dryRun outcome st b
      runBatches mode dryRun outcome total (st1, msgs ++ [progressMsg dryRun st1.converted total]) bs

/-- The batch partition the loop for (let i = 0; i < n; i += batchSize)
with slice(i, i + batchSize) walks through.  When batchSize is 0 the
source loop never advances its index and does not terminate; the model
returns no batches there and every theorem about batching assumes
batchSize is at least 1. -/
def sliceBatches (batchSize : Nat) : List RefGroup → List (List RefGroup)
  | [] => []
  | g :: gs =>
      match batchSize with
      | 0 => []
      | b + 1 => (g :: gs).take (b + 1) :: sliceBatches (b + 1) (gs.drop b)
termination_by l => l.length
decreasing_by
  simp
  omega

/-- What one convertReferences call did: the result it built, the
arguments of its onComplete calls, the commit-call trace and the
progress messages.  The source returns immediately, producing nothing,
when there are no scanned groups. -/
structure ConvertOut where
  result : Option ConversionResult
  completeCalls : List ConversionResult
  commits : List (String × List (String × Value))
  progress : List String
deriving Repr

/-- convertReferences: guard on empty pending work, then run the
batches from a zeroed accumulator and hand the result to onComplete. -/
def convertReferences (groups : List RefGroup) (mode : Mode) (batchSize : Nat) (dryRun : Bool)
    (outcome : String → Option String) : ConvertOut :=
  match groups with
  | [] => ⟨none, [], [], []⟩
  | _ :: _ =>
      let run := runBatches mode dryRun outcome groups.length (⟨0, [], 0, []⟩, [])
        (sliceBatches batchSize groups)
      let result : ConversionResult := ⟨run.1.converted, run.1.errors, run.1.spaceSaved⟩
      ⟨some result, [result], run.1.commits, run.2⟩

/-- The sizes array of formatBytes. -/
def byteSizes : List String := ["Bytes", "KB", "MB", "GB"]

/-- Renders a quantity of hundredths the way
parseFloat(x.toFixed(2)) + " " displays it: at most two decimal
digits, trailing zeros stripped, no decimal point for a whole value. -/
def trimmed (n100 : Nat) : String :=
  let q := n100 / 100
  let r := n100 % 100
  if r = 0 then toString q
  else if r % 10 = 0 then toString q ++ "." ++ toString (r / 10)
  else if r < 10 then toString q ++ ".0" ++ toString r
  else toString q ++ "." ++ toString r

/-- formatBytes of the source, in exact arithmetic: 0 maps to 0 Bytes,
otherwise the unit index is floor(log bytes / log 1024) (Nat.log, the
exact value of the float computation away from boundary rounding), the
scaled value is rounded to hundredths as toFixed(2) does, and
parseFloat strips the trailing zeros before the unit is appended
(sizes[i] is undefined beyond GB, as in JavaScript). -/
def formatBytes (bytes : Nat) : String :=
  if bytes = 0 then "0 Bytes"
  else
    let i := Nat.log 1024 bytes
    let d := 1024 ^ i
    let n100 := (bytes * 200 + d) / (2 * d)
    trimmed n100 ++ " " ++ byteSizes.getD i "undefined"

/-- Written from the spec for comparison: the largest unit index among
Bytes, KB, MB, GB whose scaled value is at least 1. -/
def specUnit (n : Nat) : Nat :=
  if 1024 ^ 3 ≤ n then 3 else if 1024 ^ 2 ≤ n then 2 else if 1024 ≤ n then 1 else 0

/-- Written from the spec for comparison: the space-savings total a run
accumulates when every group converts, 20 bytes per occurrence in
strong-to-weak mode and nothing in weak-to-strong mode. -/
def spaceEstimate (mode : Mode) (gs : List RefGroup) : Nat :=
  if mode = Mode.strongToWeak then (gs.map (fun g => g.references.length * 20)).sum else 0

/-- A document holding exactly one finder-visible reference descriptor:
it sits at path p as an object-field value, has exactly the shape
strongDesc targetId with a nonempty target id, and every other part of
the document is refFree, with the descriptor key unique among its
siblings and every value on the way down a non-descriptor object or
array. -/
inductive OneRefAt (targetId : String) : Value → List Seg → Prop
  | here (fsPre fsPost : List (String × Value)) (k : String) :
      targetId ≠ "" →
      (∀ kv ∈ fsPre, isRefDesc kv.2 = false ∧ refFree kv.2 = true ∧ kv.1 ≠ k) →
      (∀ kv ∈ fsPost, isRefDesc kv.2 = false ∧ refFree kv.2 = true ∧ kv.1 ≠ k) →
      OneRefAt targetId (.vobj (fsPre ++ (k, strongDesc targetId) :: fsPost)) [Seg.fld k]
  | stepField (fsPre fsPost : List (String × Value)) (k : String) (w : Value) (p : List Seg) :
      OneRefAt targetId w p →
      isRefDesc w = false →
      (∀ kv ∈ fsPre, isRefDesc kv.2 = false ∧ refFree kv.2 = true ∧ kv.1 ≠ k) →
      (∀ kv ∈ fsPost, isRefDesc kv.2 = false ∧ refFree kv.2 = true ∧ kv.1 ≠ k) →
      OneRefAt targetId (.vobj (fsPre ++ (k, w) :: fsPost)) (Seg.fld k :: p)
  | stepArr (lpre lpost : List Value) (e : Value) (p : List Seg) :
      OneRefAt targetId e p →
      (∀ v ∈ lpre, refFree v = true) →
      (∀ v ∈ lpost, refFree v = true) →
      OneRefAt targetId (.varr (lpre ++ e :: lpost)) (Seg.idx lpre.length :: p)

/-! ## Traversal lemmas -/

theorem truthy_of_objLike (v : Value) (h : isObjLike v = true) : truthy v = true := by
  cases v <;> simp_all [isObjLike, truthy]

theorem pathApp_append (a : List Seg) : ∀ (b : List Seg) (s : String),
    pathApp s (a ++ b) = pathApp (pathApp s a) b := by
  induction a with
  | nil => intro b s; rfl
  | cons x rest ih => intro b s; cases x <;> simp [pathApp, ih]

theorem findRefs_nil_of_refFree :
    ∀ (v : Value), refFree v = true → ∀ m path segs, findReferences v m path segs = [] := by
  intro v
  induction v using refFree.induct with
  | motive_2 fs =>
      exact refFreeFields fs = true → ∀ m path segs, findRefsFields fs m path segs = []
  | motive_3 l =>
      exact refFreeArr l = true → ∀ m path segs i, findRefsArr l m path segs i = []
  | case1 elems ih =>
      intro h m path segs
      simp only [refFree] at h
      simp only [findReferences]
      exact ih h m path segs 0
  | case2 fields ih =>
      intro h m path segs
      simp only [refFree] at h
      simp only [findReferences]
      exact ih h m path segs
  | case3 t harr hobj =>
      intro h m path segs
      cases t with
      | varr elems => exact absurd rfl (harr elems)
      | vobj fields => exact absurd rfl (hobj fields)
      | vnull => rfl
      | vbool b => rfl
      | vnum n => rfl
      | vstr s => rfl
  | case4 => intro h m path segs i; rfl
  | case5 v vs ihv ihvs =>
      intro h m path segs i
      simp only [refFreeArr, Bool.and_eq_true] at h
      simp only [findRefsArr, ihv h.1, ihvs h.2, List.nil_append]
  | case6 => intro h m path segs; rfl
  | case7 k v rest ihv ihrest =>
      intro h m path segs
      simp only [refFreeFields, Bool.and_eq_true, Bool.not_eq_eq_eq_not, Bool.not_true] at h
      obtain ⟨⟨hdesc, hfree⟩, hrest⟩ := h
      simp only [findRefsFields, ihrest hrest, List.append_nil]
      cases hol : isObjLike v with
      | false => simp [hol]
      | true => simp [hol, hdesc, ihv hfree]

theorem findRefsFields_nil (fs : List (String × Value))
    (h : ∀ kv ∈ fs, isRefDesc kv.2 = false ∧ refFree kv.2 = true) :
    ∀ m path segs, findRefsFields fs m path segs = [] := by
  induction fs with
  | nil => intro m path segs; rfl
  | cons kv rest ih =>
      intro m path segs
      obtain ⟨k, v⟩ := kv
      obtain ⟨hdesc, hfree⟩ := h (k, v) (by simp)
      have hrest : ∀ kv ∈ rest, isRefDesc kv.2 = false ∧ refFree kv.2 = true := by
        intro kv hkv; exact h kv (by simp [hkv])
      simp only [findRefsFields, ih hrest, List.append_nil]
      cases hol : isObjLike v with
      | false => simp [hol]
      | true => simp [hol, hdesc, findRefs_nil_of_refFree v hfree]

theorem findRefsArr_nil (l : List Value) (h : ∀ v ∈ l, refFree v = true) :
    ∀ m path segs i, findRefsArr l m path segs i = [] := by
  induction l with
  | nil => intro m path segs i; rfl
  | cons v vs ih =>
      intro m path segs i
      have hv := h v (by simp)
      have hvs : ∀ v ∈ vs, refFree v = true := fun u hu => h u (by simp [hu])
      simp only [findRefsArr, findRefs_nil_of_refFree v hv, ih hvs, List.nil_append]

theorem findRefsFields_append (fs1 fs2 : List (String × Value)) (m : Mode) (path : String)
    (segs : List Seg) :
    findRefsFields (fs1 ++ fs2) m path segs
      = findRefsFields fs1 m path segs ++ findRefsFields fs2 m path segs := by
  induction fs1 with
  | nil => simp [findRefsFields]
  | cons kv rest ih =>
      obtain ⟨k, v⟩ := kv
      simp only [List.cons_append, findRefsFields, List.append_eq, ih, List.append_assoc]

theorem findRefsArr_append (l1 : List Value) : ∀ (l2 : List Value) (m : Mode) (path : String)
    (segs : List Seg) (i : Nat),
    findRefsArr (l1 ++ l2) m path segs i
      = findRefsArr l1 m path segs i ++ findRefsArr l2 m path segs (i + l1.length) := by
  induction l1 with
  | nil => intro l2 m path segs i; simp [findRefsArr]
  | cons v vs ih =>
      intro l2 m path segs i
      simp only [List.cons_append, findRefsArr, List.append_eq, ih, List.append_assoc,
        List.length_cons]
      have h2 : i + (vs.length + 1) = i + 1 + vs.length := by omega
      rw [h2]

/-! ## Patch-application lemmas -/

theorem setAtFields_skip (fs : List (String × Value)) (k : String) (rest : List Seg)
    (nv : Value) (h : ∀ kv ∈ fs, kv.1 ≠ k) : setAtFields fs k rest nv = fs := by
  induction fs with
  | nil => rfl
  | cons kv rest2 ih =>
      obtain ⟨k2, v2⟩ := kv
      have hne : k2 ≠ k := h (k2, v2) (by simp)
      have hrest : ∀ kv ∈ rest2, kv.1 ≠ k := fun u hu => h u (by simp [hu])
      simp only [setAtFields, if_neg hne, List.cons.injEq, true_and]
      exact ih hrest

theorem setAtFields_mid (fs1 fs2 : List (String × Value)) (k : String) (v : Value)
    (rest : List Seg) (nv : Value)
    (h1 : ∀ kv ∈ fs1, kv.1 ≠ k) (h2 : ∀ kv ∈ fs2, kv.1 ≠ k) :
    setAtFields (fs1 ++ (k, v) :: fs2) k rest nv = fs1 ++ (k, setAt v rest nv) :: fs2 := by
  induction fs1 with
  | nil =>
      simp only [List.nil_append, setAtFields, eq_self_iff_true, if_true, List.cons.injEq,
        true_and]
      exact setAtFields_skip fs2 k rest nv h2
  | cons kv rest1 ih =>
      obtain ⟨k1, v1⟩ := kv
      have hne : k1 ≠ k := h1 (k1, v1) (by simp)
      have hrest : ∀ kv ∈ rest1, kv.1 ≠ k := fun u hu => h1 u (by simp [hu])
      simp only [List.cons_append, setAtFields, if_neg hne, List.cons.injEq, true_and]
      exact ih hrest

theorem setAtArr_mid (l1 : List Value) : ∀ (l2 : List Value) (e : Value) (rest : List Seg)
    (nv : Value),
    setAtArr (l1 ++ e :: l2) l1.length rest nv = l1 ++ setAt e rest nv :: l2 := by
  induction l1 with
  | nil => intro l2 e rest nv; rfl
  | cons v vs ih =>
      intro l2 e rest nv
      simp only [List.cons_append, List.length_cons, setAtArr, List.cons.injEq, true_and]
      exact ih l2 e rest nv

theorem lookupField_mid (fs1 : List (String × Value)) : ∀ (fs2 : List (String × Value))
    (k key : String) (v : Value),
    lookupField (fs1 ++ (k, v) :: fs2) key
      = (match lookupField fs1 key with
          | some u => some u
          | none => if k = key then some v else lookupField fs2 key) := by
  induction fs1 with
  | nil => intro fs2 k key v; rfl
  | cons kv rest ih =>
      intro fs2 k key v
      obtain ⟨k1, v1⟩ := kv
      by_cases h : k1 = key
      · simp [lookupField, h]
      · simp only [List.cons_append, lookupField, if_neg h, List.append_eq, ih]

theorem typeTagIsRef_of_objLike (v : Value) (hv : isObjLike v = true) :
    typeTagIsRef (some v) = false := by
  cases v <;> simp_all [isObjLike, typeTagIsRef]

theorem truthyOpt_of_objLike (v : Value) (hv : isObjLike v = true) :
    truthyOpt (some v) = true := by
  simp [truthyOpt, truthy_of_objLike v hv]

theorem isRefDesc_mid_congr (fs1 fs2 : List (String × Value)) (k : String) (v v' : Value)
    (hv : isObjLike v = true) (hv' : isObjLike v' = true) :
    isRefDesc (.vobj (fs1 ++ (k, v) :: fs2)) = isRefDesc (.vobj (fs1 ++ (k, v') :: fs2)) := by
  simp only [isRefDesc, lookupField_mid]
  cases hl : lookupField fs1 "_type" with
  | some u =>
      cases hr : lookupField fs1 "_ref" with
      | some w => rfl
      | none =>
          by_cases hk : k = "_ref"
          · simp [hk, truthyOpt_of_objLike v hv, truthyOpt_of_objLike v' hv']
          · simp [hk]
  | none =>
      by_cases hk1 : k = "_type"
      · simp only [hk1, eq_self_iff_true, if_true, typeTagIsRef_of_objLike v hv,
          typeTagIsRef_of_objLike v' hv', Bool.false_and]
      · simp only [if_neg hk1]
        cases hr : lookupField fs1 "_ref" with
        | some w => rfl
        | none =>
            by_cases hk : k = "_ref"
            · simp [hk, truthyOpt_of_objLike v hv, truthyOpt_of_objLike v' hv']
            · simp [hk]

/-! ## Descriptor evaluation lemmas -/

theorem isObjLike_strongDesc (X : String) : isObjLike (strongDesc X) = true := rfl

theorem isObjLike_weakDesc (X : String) : isObjLike (weakDesc X) = true := rfl

theorem isRefDesc_strongDesc (X : String) (hX : X ≠ "") : isRefDesc (strongDesc X) = true := by
  simp [isRefDesc, strongDesc, lookupField, typeTagIsRef, truthyOpt, truthy, hX]

theorem isRefDesc_weakDesc (X : String) (hX : X ≠ "") : isRefDesc (weakDesc X) = true := by
  simp [isRefDesc, weakDesc, lookupField, typeTagIsRef, truthyOpt, truthy, hX]

theorem weakOf_strongDesc (X : String) : weakOf (strongDesc X) = false := rfl

theorem weakOf_weakDesc (X : String) : weakOf (weakDesc X) = true := rfl

theorem refOf_strongDesc (X : String) : refOf (strongDesc X) = .vstr X := rfl

theorem refOf_weakDesc (X : String) : refOf (weakDesc X) = .vstr X := rfl

/-! ## The one-descriptor round trip -/

theorem oneRef_main (X : String) (doc : Value) (p : List Seg) (h : OneRefAt X doc p) :
    (∀ path segs, findReferences doc Mode.strongToWeak path segs
        = [⟨pathApp path p, "strong", .vstr X, false, segs ++ p⟩])
    ∧ (∀ path segs, findReferences (setAt doc p (weakDesc X)) Mode.weakToStrong path segs
        = [⟨pathApp path p, "weak", .vstr X, true, segs ++ p⟩])
    ∧ setAt (setAt doc p (weakDesc X)) p (strongDesc X) = doc
    ∧ isRefDesc (setAt doc p (weakDesc X)) = isRefDesc doc
    ∧ isObjLike doc = true
    ∧ isObjLike (setAt doc p (weakDesc X)) = true := by
  induction h with
  | here fs1 fs2 k hX hpre hpost =>
      have hpre1 : ∀ kv ∈ fs1, kv.1 ≠ k := fun kv hkv => (hpre kv hkv).2.2
      have hpost1 : ∀ kv ∈ fs2, kv.1 ≠ k := fun kv hkv => (hpost kv hkv).2.2
      have hpre2 : ∀ kv ∈ fs1, isRefDesc kv.2 = false ∧ refFree kv.2 = true :=
        fun kv hkv => ⟨(hpre kv hkv).1, (hpre kv hkv).2.1⟩
      have hpost2 : ∀ kv ∈ fs2, isRefDesc kv.2 = false ∧ refFree kv.2 = true :=
        fun kv hkv => ⟨(hpost kv hkv).1, (hpost kv hkv).2.1⟩
      have hset : setAt (.vobj (fs1 ++ (k, strongDesc X) :: fs2)) [Seg.fld k] (weakDesc X)
          = .vobj (fs1 ++ (k, weakDesc X) :: fs2) := by
        simp only [setAt]
        rw [setAtFields_mid fs1 fs2 k (strongDesc X) [] (weakDesc X) hpre1 hpost1]
        simp only [setAt]
      refine ⟨?_, ?_, ?_, ?_, rfl, ?_⟩
      · intro path segs
        simp only [findReferences]
        rw [findRefsFields_append, findRefsFields_nil fs1 hpre2]
        simp only [findRefsFields]
        rw [findRefsFields_nil fs2 hpost2]
        simp [isObjLike_strongDesc, isRefDesc_strongDesc X hX, refOf_strongDesc,
          weakOf_strongDesc, pathApp]
      · intro path segs
        rw [hset]
        simp only [findReferences]
        rw [findRefsFields_append, findRefsFields_nil fs1 hpre2]
        simp only [findRefsFields]
        rw [findRefsFields_nil fs2 hpost2]
        simp [isObjLike_weakDesc, isRefDesc_weakDesc X hX, refOf_weakDesc,
          weakOf_weakDesc, pathApp]
      · rw [hset]
        simp only [setAt]
        rw [setAtFields_mid fs1 fs2 k (weakDesc X) [] (strongDesc X) hpre1 hpost1]
        simp only [setAt]
      · rw [hset]
        exact isRefDesc_mid_congr fs1 fs2 k (weakDesc X) (strongDesc X)
          (isObjLike_weakDesc X) (isObjLike_strongDesc X)
      · rw [hset]; rfl
  | stepField fs1 fs2 k w p' hw hdesc hpre hpost ih =>
      obtain ⟨iha, ihb, ihc, ihd, ihf, ihg⟩ := ih
      have hpre1 : ∀ kv ∈ fs1, kv.1 ≠ k := fun kv hkv => (hpre kv hkv).2.2
      have hpost1 : ∀ kv ∈ fs2, kv.1 ≠ k := fun kv hkv => (hpost kv hkv).2.2
      have hpre2 : ∀ kv ∈ fs1, isRefDesc kv.2 = false ∧ refFree kv.2 = true :=
        fun kv hkv => ⟨(hpre kv hkv).1, (hpre kv hkv).2.1⟩
      have hpost2 : ∀ kv ∈ fs2, isRefDesc kv.2 = false ∧ refFree kv.2 = true :=
        fun kv hkv => ⟨(hpost kv hkv).1, (hpost kv hkv).2.1⟩
      have hset : setAt (.vobj (fs1 ++ (k, w) :: fs2)) (Seg.fld k :: p') (weakDesc X)
          = .vobj (fs1 ++ (k, setAt w p' (weakDesc X)) :: fs2) := by
        simp only [setAt]
        rw [setAtFields_mid fs1 fs2 k w p' (weakDesc X) hpre1 hpost1]
      have hdesc2 : isRefDesc (setAt w p' (weakDesc X)) = false := by rw [ihd]; exact hdesc
      refine ⟨?_, ?_, ?_, ?_, rfl, ?_⟩
      · intro path segs
        simp only [findReferences]
        rw [findRefsFields_append, findRefsFields_nil fs1 hpre2]
        simp only [findRefsFields]
        rw [findRefsFields_nil fs2 hpost2]
        simp [ihf, hdesc, iha, pathApp, List.append_assoc]
      · intro path segs
        rw [hset]
        simp only [findReferences]
        rw [findRefsFields_append, findRefsFields_nil fs1 hpre2]
        simp only [findRefsFields]
        rw [findRefsFields_nil fs2 hpost2]
        simp [ihg, hdesc2, ihb, pathApp, List.append_assoc]
      · rw [hset]
        simp only [setAt]
        rw [setAtFields_mid fs1 fs2 k (setAt w p' (weakDesc X)) p' (strongDesc X) hpre1 hpost1]
        rw [ihc]
      · rw [hset]
        exact isRefDesc_mid_congr fs1 fs2 k (setAt w p' (weakDesc X)) w ihg ihf
      · rw [hset]; rfl
  | stepArr l1 l2 e p' he hpre hpost ih =>
      obtain ⟨iha, ihb, ihc, ihd, ihf, ihg⟩ := ih
      have hset : setAt (.varr (l1 ++ e :: l2)) (Seg.idx l1.length :: p') (weakDesc X)
          = .varr (l1 ++ setAt e p' (weakDesc X) :: l2) := by
        simp only [setAt]
        rw [setAtArr_mid l1 l2 e p' (weakDesc X)]
      refine ⟨?_, ?_, ?_, by rw [hset]; rfl, rfl, by rw [hset]; rfl⟩
      · intro path segs
        simp only [findReferences]
        rw [findRefsArr_append, findRefsArr_nil l1 hpre]
        simp only [findRefsArr, Nat.zero_add]
        rw [findRefsArr_nil l2 hpost]
        simp [iha, pathApp, List.append_assoc]
      · intro path segs
        rw [hset]
        simp only [findReferences]
        rw [findRefsArr_append, findRefsArr_nil l1 hpre]
        simp only [findRefsArr, Nat.zero_add]
        rw [findRefsArr_nil l2 hpost]
        simp [ihb, pathApp, List.append_assoc]
      · rw [hset]
        simp only [setAt]
        rw [setAtArr_mid l1 l2 (setAt e p' (weakDesc X)) p' (strongDesc X)]
        rw [ihc]

/-! ## Pipeline lemmas -/

theorem spaceEstimate_cons (mode : Mode) (g : RefGroup) (gs : List RefGroup) :
    spaceEstimate mode (g :: gs)
      = (if mode = Mode.strongToWeak then g.references.length * 20 else 0)
        + spaceEstimate mode gs := by
  cases mode <;> simp [spaceEstimate]

theorem runBatches_fst (mode : Mode) (dry : Bool) (outcome : String → Option String)
    (total : Nat) : ∀ (bss : List (List RefGroup)) (st : RunState) (msgs : List String),
    (runBatches mode dry outcome total (st, msgs) bss).1
      = bss.flatten.foldl (processItem mode dry outcome) st := by
  intro bss
  induction bss with
  | nil => intro st msgs; rfl
  | cons b bs ih =>
      intro st msgs
      simp only [runBatches, processBatch]
      rw [ih]
      simp [List.foldl_append]

theorem sliceBatches_flatten (batchSize : Nat) (gs : List RefGroup) (hbs : 1 ≤ batchSize) :
    (sliceBatches batchSize gs).flatten = gs := by
  induction batchSize, gs using sliceBatches.induct with
  | case1 b => simp [sliceBatches]
  | case2 g gs => omega
  | case3 g gs b ih =>
      simp only [sliceBatches, List.flatten_cons]
      rw [ih (by omega)]
      simp [List.take_succ_cons, List.take_append_drop]

theorem sliceBatches_sizes (batchSize : Nat) (gs : List RefGroup) (hbs : 1 ≤ batchSize) :
    ∀ b ∈ sliceBatches batchSize gs, b ≠ [] ∧ b.length ≤ batchSize := by
  induction batchSize, gs using sliceBatches.induct with
  | case1 b => intro b hb; simp [sliceBatches] at hb
  | case2 g gs => omega
  | case3 g gs b ih =>
      intro bt hbt
      simp only [sliceBatches, List.mem_cons] at hbt
      cases hbt with
      | inl h =>
          subst h
          constructor
          · simp [List.take_succ_cons]
          · exact List.length_take_le (b + 1) (g :: gs)
      | inr h => exact ih (by omega) bt h

theorem processItem_dry (mode : Mode) (outcome : String → Option String) (st : RunState)
    (g : RefGroup) :
    processItem mode true outcome st g
      = ⟨st.converted + 1, st.errors,
          st.spaceSaved + (if mode = Mode.strongToWeak then g.references.length * 20 else 0),
          st.commits⟩ := rfl

theorem processItem_ok (mode : Mode) (outcome : String → Option String) (st : RunState)
    (g : RefGroup) (h : outcome (idOf g.document) = none) :
    processItem mode false outcome st g
      = ⟨st.converted + 1, st.errors,
          st.spaceSaved + (if mode = Mode.strongToWeak then g.references.length * 20 else 0),
          st.commits
            ++ [(idOf g.document, g.references.map (fun r => (r.path, patchValue mode r)))]⟩ := by
  simp [processItem, h]

theorem processItem_err (mode : Mode) (outcome : String → Option String) (st : RunState)
    (g : RefGroup) (e : String) (h : outcome (idOf g.document) = some e) :
    processItem mode false outcome st g
      = ⟨st.converted, st.errors ++ ["Failed to convert " ++ idOf g.document ++ ": " ++ e],
          st.spaceSaved,
          st.commits
            ++ [(idOf g.document, g.references.map (fun r => (r.path, patchValue mode r)))]⟩ := by
  simp [processItem, h]

theorem foldl_processItem_dry (mode : Mode) (outcome : String → Option String) :
    ∀ (gs : List RefGroup) (st : RunState),
    gs.foldl (processItem mode true outcome) st
      = ⟨st.converted + gs.length, st.errors, st.spaceSaved + spaceEstimate mode gs,
          st.commits⟩ := by
  intro gs
  induction gs with
  | nil =>
      intro st
      simp [spaceEstimate]
  | cons g rest ih =>
      intro st
      simp only [List.foldl_cons, processItem_dry, ih, spaceEstimate_cons, List.length_cons,
        RunState.mk.injEq]
      refine ⟨by omega, by trivial, by omega, by trivial⟩

theorem foldl_processItem_ok (mode : Mode) (outcome : String → Option String) :
    ∀ (gs : List RefGroup) (st : RunState),
    (∀ g ∈ gs, outcome (idOf g.document) = none) →
    gs.foldl (processItem mode false outcome) st
      = ⟨st.converted + gs.length, st.errors, st.spaceSaved + spaceEstimate mode gs,
          st.commits ++ gs.map (fun g =>
            (idOf g.document, g.references.map (fun r => (r.path, patchValue mode r))))⟩ := by
  intro gs
  induction gs with
  | nil =>
      intro st h
      simp [spaceEstimate]
  | cons g rest ih =>
      intro st h
      have hg := h g (by simp)
      have hrest : ∀ u ∈ rest, outcome (idOf u.document) = none :=
        fun u hu => h u (by simp [hu])
      simp only [List.foldl_cons, processItem_ok mode outcome st g hg, ih _ hrest,
        spaceEstimate_cons, List.map_cons, List.length_cons, RunState.mk.injEq]
      refine ⟨by omega, by trivial, by omega, by simp⟩

theorem convert_core (gs : List RefGroup) (g0 : RefGroup) (rest : List RefGroup)
    (hgs : gs = g0 :: rest) (mode : Mode) (batchSize : Nat) (dry : Bool)
    (outcome : String → Option String) (hbs : 1 ≤ batchSize) :
    (convertReferences gs mode batchSize dry outcome).result
        = some ⟨(gs.foldl (processItem mode dry outcome) ⟨0, [], 0, []⟩).converted,
                (gs.foldl (processItem mode dry outcome) ⟨0, [], 0, []⟩).errors,
                (gs.foldl (processItem mode dry outcome) ⟨0, [], 0, []⟩).spaceSaved⟩
      ∧ (convertReferences gs mode batchSize dry outcome).completeCalls
        = [⟨(gs.foldl (processItem mode dry outcome) ⟨0, [], 0, []⟩).converted,
            (gs.foldl (processItem mode dry outcome) ⟨0, [], 0, []⟩).errors,
            (gs.foldl (processItem mode dry outcome) ⟨0, [], 0, []⟩).spaceSaved⟩]
      ∧ (convertReferences gs mode batchSize dry outcome).commits
        = (gs.foldl (processItem mode dry outcome) ⟨0, [], 0, []⟩).commits := by
  subst hgs
  simp only [convertReferences]
  rw [runBatches_fst, sliceBatches_flatten _ _ hbs]
  exact ⟨rfl, rfl, rfl⟩

/-! ## Formatter lemmas -/

theorem log1024_eq_specUnit (n : Nat) (h1 : 1 ≤ n) (h2 : n < 1024 ^ 4) :
    Nat.log 1024 n = specUnit n := by
  unfold specUnit
  by_cases h3 : 1024 ^ 3 ≤ n
  · rw [if_pos h3]
    exact Nat.log_eq_of_pow_le_of_lt_pow h3 (by norm_num at h2 ⊢; omega)
  · rw [if_neg h3]
    by_cases h4 : 1024 ^ 2 ≤ n
    · rw [if_pos h4]
      exact Nat.log_eq_of_pow_le_of_lt_pow h4 (by norm_num at h3 ⊢; omega)
    · rw [if_neg h4]
      by_cases h5 : 1024 ≤ n
      · rw [if_pos h5]
        exact Nat.log_eq_of_pow_le_of_lt_pow (by norm_num; omega)
          (by norm_num at h4 ⊢; omega)
      · rw [if_neg h5]
        exact Nat.log_eq_of_pow_le_of_lt_pow (by norm_num; omega)
          (by norm_num; omega)

theorem formatBytes_spec_form (n : Nat) (h1 : 1 ≤ n) (h2 : n < 1024 ^ 4) :
    formatBytes n
      = trimmed ((n * 200 + 1024 ^ specUnit n) / (2 * 1024 ^ specUnit n)) ++ " "
        ++ byteSizes.getD (specUnit n) "undefined" := by
  unfold formatBytes
  rw [if_neg (by omega), log1024_eq_specUnit n h1 h2]

theorem formatBytes_1536 : formatBytes 1536 = "1.5 KB" := by
  have hlog : Nat.log 1024 1536 = 1 :=
    Nat.log_eq_of_pow_le_of_lt_pow (by norm_num) (by norm_num)
  unfold formatBytes
  rw [if_neg (by norm_num), hlog]
  norm_num [trimmed, byteSizes]
  rfl

theorem specUnit_props (n : Nat) (h1 : 1 ≤ n) :
    1024 ^ specUnit n ≤ n ∧ specUnit n ≤ 3
      ∧ ∀ j, j ≤ 3 → 1024 ^ j ≤ n → j ≤ specUnit n := by
  unfold specUnit
  by_cases h3 : 1024 ^ 3 ≤ n
  · rw [if_pos h3]
    exact ⟨h3, le_refl 3, fun j hj _ => hj⟩
  · rw [if_neg h3]
    by_cases h4 : 1024 ^ 2 ≤ n
    · rw [if_pos h4]
      refine ⟨h4, by norm_num, fun j hj hjn => ?_⟩
      interval_cases j
      · omega
      · omega
      · omega
      · exact absurd hjn h3
    · rw [if_neg h4]
      by_cases h5 : 1024 ≤ n
      · rw [if_pos h5]
        refine ⟨by simpa using h5, by norm_num, fun j hj hjn => ?_⟩
        interval_cases j
        · omega
        · omega
        · exact absurd hjn h4
        · exact absurd hjn h3
      · rw [if_neg h5]
        refine ⟨by simpa using h1, by norm_num, fun j hj hjn => ?_⟩
        interval_cases j
        · omega
        · rw [pow_one] at hjn
          exact absurd hjn h5
        · exact absurd hjn h4
        · exact absurd hjn h3

/-! ## Claims -/

/-- C1 counterexample: a descriptor that already carries the weak marker
still yields a strong-to-weak occurrence (with its weak flag recorded),
so the claim that it yields no occurrence is false on the code. -/
theorem c1_counterexample :
    findReferences (.vobj [("a", weakDesc "x")]) Mode.strongToWeak "" []
        = [⟨"a", "strong", .vstr "x", true, [Seg.fld "a"]⟩]
    ∧ findReferences (.vobj [("a", weakDesc "x")]) Mode.strongToWeak "" [] ≠ [] := by
  have h1 : findReferences (.vobj [("a", weakDesc "x")]) Mode.strongToWeak "" []
      = [⟨"a", "strong", .vstr "x", true, [Seg.fld "a"]⟩] := by
    simp [findReferences, findRefsFields, isObjLike, isRefDesc, lookupField, typeTagIsRef,
      truthyOpt, truthy, weakOf, refOf, weakDesc]
  refine ⟨h1, ?_⟩
  rw [h1]
  simp

/-- C1 (amended): in StrongToWeak mode the finder emits exactly one
occurrence for every reference descriptor sitting as an object-field
value, regardless of its weak marker; the occurrence records the
weak marker of the descriptor (false when absent) and the descriptor is
treated as a terminal leaf, its own fields never being recursed into. -/
theorem c1_claim (k : String) (d : Value) (hd : isRefDesc d = true)
    (fs : List (String × Value)) (path : String) (segs : List Seg) :
    findReferences (.vobj ((k, d) :: fs)) Mode.strongToWeak path segs
      = ⟨if path = "" then k else path ++ "." ++ k, "strong", refOf d, weakOf d,
          segs ++ [Seg.fld k]⟩ :: findRefsFields fs Mode.strongToWeak path segs := by
  have hobj : isObjLike d = true := by
    cases d <;> simp_all [isRefDesc, isObjLike]
  simp only [findReferences, findRefsFields, hobj, hd]
  simp

/-- C1 witness: the amended statement evaluated on an already-weak
descriptor, which is emitted with its weak flag set. -/
theorem c1_witness :
    isRefDesc (weakDesc "x") = true
    ∧ findReferences (.vobj [("a", weakDesc "x")]) Mode.strongToWeak "" []
        = [⟨"a", "strong", .vstr "x", true, [Seg.fld "a"]⟩] := by
  have hd : isRefDesc (weakDesc "x") = true := isRefDesc_weakDesc "x" (by decide)
  refine ⟨hd, ?_⟩
  rw [c1_claim "a" (weakDesc "x") hd [] "" []]
  simp [refOf_weakDesc, weakOf_weakDesc, findRefsFields]

/-- C2 counterexample: after the strong-to-weak patch of the single
strong reference at key author, a weak-to-strong scan of the patched
document yields one occurrence, not zero as the claim states. -/
theorem c2_counterexample :
    findReferences
        (setAt (.vobj [("author", strongDesc "x")]) [Seg.fld "author"] (weakDesc "x"))
        Mode.weakToStrong "" [] ≠ [] := by
  have h : setAt (.vobj [("author", strongDesc "x")]) [Seg.fld "author"] (weakDesc "x")
      = .vobj [("author", weakDesc "x")] := by
    simp [setAt, setAtFields]
  rw [h]
  have h2 : findReferences (.vobj [("author", weakDesc "x")]) Mode.weakToStrong "" []
      = [⟨"author", "weak", .vstr "x", true, [Seg.fld "author"]⟩] := by
    simp [findReferences, findRefsFields, isObjLike, isRefDesc, lookupField, typeTagIsRef,
      truthyOpt, truthy, weakOf, refOf, weakDesc]
  rw [h2]
  simp

/-- C2 (amended): for every document holding exactly one finder-visible
reference descriptor, of exactly the strong shape with target X, the
StrongToWeak scan yields exactly one occurrence with isWeak false;
after applying the StrongToWeak patch for that occurrence (the patch
value the pipeline builds), a WeakToStrong scan over the patched
document yields exactly ONE occurrence, the descriptor now being weak;
and applying the StrongToWeak patch followed by the WeakToStrong patch
restores the document exactly, the weak marker absent again. -/
theorem c2_claim (X : String) (doc : Value) (p : List Seg) (h : OneRefAt X doc p) :
    findReferences doc Mode.strongToWeak "" []
        = [⟨pathApp "" p, "strong", .vstr X, false, p⟩]
    ∧ patchValue Mode.strongToWeak ⟨pathApp "" p, "strong", .vstr X, false, p⟩ = weakDesc X
    ∧ findReferences (setAt doc p (weakDesc X)) Mode.weakToStrong "" []
        = [⟨pathApp "" p, "weak", .vstr X, true, p⟩]
    ∧ patchValue Mode.weakToStrong ⟨pathApp "" p, "weak", .vstr X, true, p⟩ = strongDesc X
    ∧ setAt (setAt doc p (weakDesc X)) p (strongDesc X) = doc := by
  obtain ⟨ha, hb, hc, _, _, _⟩ := oneRef_main X doc p h
  refine ⟨?_, rfl, ?_, rfl, hc⟩
  · have h0 := ha "" []
    simpa using h0
  · have h0 := hb "" []
    simpa using h0

/-- C2 witness: the amended round trip evaluated on the document with
one strong reference at key author. -/
theorem c2_witness :
    OneRefAt "x" (.vobj [("author", strongDesc "x")]) [Seg.fld "author"]
    ∧ (findReferences (.vobj [("author", strongDesc "x")]) Mode.strongToWeak "" []
        = [⟨pathApp "" [Seg.fld "author"], "strong", .vstr "x", false, [Seg.fld "author"]⟩]
      ∧ patchValue Mode.strongToWeak
          ⟨pathApp "" [Seg.fld "author"], "strong", .vstr "x", false, [Seg.fld "author"]⟩
          = weakDesc "x"
      ∧ findReferences
          (setAt (.vobj [("author", strongDesc "x")]) [Seg.fld "author"] (weakDesc "x"))
          Mode.weakToStrong "" []
          = [⟨pathApp "" [Seg.fld "author"], "weak", .vstr "x", true, [Seg.fld "author"]⟩]
      ∧ patchValue Mode.weakToStrong
          ⟨pathApp "" [Seg.fld "author"], "weak", .vstr "x", true, [Seg.fld "author"]⟩
          = strongDesc "x"
      ∧ setAt (setAt (.vobj [("author", strongDesc "x")]) [Seg.fld "author"] (weakDesc "x"))
          [Seg.fld "author"] (strongDesc "x")
          = .vobj [("author", strongDesc "x")]) := by
  have h : OneRefAt "x" (.vobj [("author", strongDesc "x")]) [Seg.fld "author"] :=
    OneRefAt.here [] [] "author" (by decide) (by simp) (by simp)
  exact ⟨h, c2_claim "x" (.vobj [("author", strongDesc "x")]) [Seg.fld "author"] h⟩

/-- C7 counterexample: formatBytes 1536 renders as 1.5 KB because the
parseFloat step strips the trailing zero of toFixed, so the claimed
1.50 KB is false on the code. -/
theorem c7_counterexample : formatBytes 1536 ≠ "1.50 KB" := by
  rw [formatBytes_1536]
  decide

/-- C7 (amended): formatBytes 0 is the literal 0 Bytes; for every
positive input below 1024 to the 4th the value is scaled by the largest
base-1024 unit among Bytes, KB, MB, GB whose scaled value is at least
1, rounded to hundredths and rendered with AT MOST two decimal digits,
trailing zeros stripped by the parseFloat step, plus the unit suffix;
in particular formatBytes 1536 is exactly 1.5 KB, not 1.50 KB. -/
theorem c7_claim (n : Nat) (h1 : 1 ≤ n) (h2 : n < 1024 ^ 4) :
    formatBytes 0 = "0 Bytes"
    ∧ formatBytes 1536 = "1.5 KB"
    ∧ formatBytes n
        = trimmed ((n * 200 + 1024 ^ specUnit n) / (2 * 1024 ^ specUnit n)) ++ " "
          ++ byteSizes.getD (specUnit n) "undefined"
    ∧ 1024 ^ specUnit n ≤ n
    ∧ specUnit n ≤ 3
    ∧ (∀ j, j ≤ 3 → 1024 ^ j ≤ n → j ≤ specUnit n) := by
  obtain ⟨hle, hcap, hmax⟩ := specUnit_props n h1
  exact ⟨rfl, formatBytes_1536, formatBytes_spec_form n h1 h2, hle, hcap, hmax⟩

/-- C7 witness: the amended statement evaluated at 1536 bytes. -/
theorem c7_witness :
    1 ≤ 1536 ∧ 1536 < 1024 ^ 4
    ∧ (formatBytes 0 = "0 Bytes"
      ∧ formatBytes 1536 = "1.5 KB"
      ∧ formatBytes 1536
          = trimmed ((1536 * 200 + 1024 ^ specUnit 1536) / (2 * 1024 ^ specUnit 1536)) ++ " "
            ++ byteSizes.getD (specUnit 1536) "undefined"
      ∧ 1024 ^ specUnit 1536 ≤ 1536
      ∧ specUnit 1536 ≤ 3
      ∧ (∀ j, j ≤ 3 → 1024 ^ j ≤ 1536 → j ≤ specUnit 1536)) :=
  ⟨by norm_num, by norm_num, c7_claim 1536 (by norm_num) (by norm_num)⟩

/-- C8: a reference descriptor nested at items[1].linked, an array
element field inside an object, is emitted with the path string exactly
items[1].linked, bracket and dot notation combined. -/
theorem c8_claim (v0 : Value) (hv0 : refFree v0 = true) (X : String) (hX : X ≠ "") :
    findReferences (.vobj [("items", .varr [v0, .vobj [("linked", strongDesc X)]])])
        Mode.strongToWeak "" []
      = [⟨"items[1].linked", "strong", .vstr X, false,
          [Seg.fld "items", Seg.idx 1, Seg.fld "linked"]⟩] := by
  simp only [findReferences, findRefsFields, findRefsArr]
  rw [findRefs_nil_of_refFree v0 hv0]
  simp [isObjLike, isRefDesc, lookupField, typeTagIsRef, truthyOpt, truthy, weakOf, refOf,
    strongDesc, hX]
  rfl

/-- C8 witness: the path statement evaluated with a scalar first array
element and target id x. -/
theorem c8_witness :
    refFree (.vstr "q") = true ∧ ("x" : String) ≠ ""
    ∧ findReferences
        (.vobj [("items", .varr [.vstr "q", .vobj [("linked", strongDesc "x")]])])
        Mode.strongToWeak "" []
      = [⟨"items[1].linked", "strong", .vstr "x", false,
          [Seg.fld "items", Seg.idx 1, Seg.fld "linked"]⟩] := by
  have hv0 : refFree (Value.vstr "q") = true := by simp [refFree]
  exact ⟨hv0, by decide, c8_claim (.vstr "q") hv0 "x" (by decide)⟩

theorem sliceBatches_cons_eq (b : Nat) (hb : 1 ≤ b) (gs : List RefGroup) (h : gs ≠ []) :
    sliceBatches b gs = gs.take b :: sliceBatches b (gs.drop b) := by
  match b, hb with
  | b + 1, _ =>
    cases gs with
    | nil => exact absurd rfl h
    | cons g t => simp [sliceBatches, List.drop_succ_cons]

/-- C3: with exactly one failing group in the run, convert appends
exactly the one formatted failure message, keeps processing, and the
final count is every other group, the failed one excluded. -/
theorem c3_claim (gpre gpost : List RefGroup) (g : RefGroup) (e : String) (mode : Mode)
    (batchSize : Nat) (hbs : 1 ≤ batchSize) (outcome : String → Option String)
    (hfail : outcome (idOf g.document) = some e)
    (hok : ∀ u ∈ gpre ++ gpost, outcome (idOf u.document) = none) :
    ∃ r, (convertReferences (gpre ++ g :: gpost) mode batchSize false outcome).result = some r
      ∧ r.errors = ["Failed to convert " ++ idOf g.document ++ ": " ++ e]
      ∧ r.converted = gpre.length + gpost.length := by
  have hokpre : ∀ u ∈ gpre, outcome (idOf u.document) = none :=
    fun u hu => hok u (by simp [hu])
  have hokpost : ∀ u ∈ gpost, outcome (idOf u.document) = none :=
    fun u hu => hok u (by simp [hu])
  obtain ⟨g0, rest, hsh⟩ : ∃ g0 rest, gpre ++ g :: gpost = g0 :: rest := by
    cases gpre with
    | nil => exact ⟨g, gpost, rfl⟩
    | cons a l => exact ⟨a, l ++ g :: gpost, rfl⟩
  obtain ⟨hres, hcomp, hcom⟩ :=
    convert_core (gpre ++ g :: gpost) g0 rest hsh mode batchSize false outcome hbs
  refine ⟨_, hres, ?_, ?_⟩
  · show ((gpre ++ g :: gpost).foldl (processItem mode false outcome) ⟨0, [], 0, []⟩).errors = _
    rw [List.foldl_append, List.foldl_cons,
      foldl_processItem_ok mode outcome gpre _ hokpre,
      processItem_err mode outcome _ g e hfail,
      foldl_processItem_ok mode outcome gpost _ hokpost]
    simp
  · show ((gpre ++ g :: gpost).foldl (processItem mode false outcome) ⟨0, [], 0, []⟩).converted
      = gpre.length + gpost.length
    rw [List.foldl_append, List.foldl_cons,
      foldl_processItem_ok mode outcome gpre _ hokpre,
      processItem_err mode outcome _ g e hfail,
      foldl_processItem_ok mode outcome gpost _ hokpost]
    simp

/-- C3 witness: three concrete groups where the middle commit rejects
with timeout; the result carries exactly that message and counts 2. -/
theorem c3_witness :
    (1 : Nat) ≤ 10
    ∧ (fun s => if s = "f" then some "timeout" else none)
        (idOf (RefGroup.mk (.vobj [("_id", .vstr "f")]) [] 0).document) = some "timeout"
    ∧ (∀ u ∈ ([⟨.vobj [("_id", .vstr "a")], [], 0⟩] ++ [⟨.vobj [("_id", .vstr "b")], [], 0⟩]
          : List RefGroup),
        (fun s => if s = "f" then some "timeout" else none) (idOf u.document) = none)
    ∧ ∃ r, (convertReferences
          ([⟨.vobj [("_id", .vstr "a")], [], 0⟩]
            ++ (⟨.vobj [("_id", .vstr "f")], [], 0⟩ : RefGroup)
              :: [⟨.vobj [("_id", .vstr "b")], [], 0⟩])
          Mode.strongToWeak 10 false (fun s => if s = "f" then some "timeout" else none)).result
        = some r
      ∧ r.errors = ["Failed to convert "
          ++ idOf (RefGroup.mk (.vobj [("_id", .vstr "f")]) [] 0).document ++ ": " ++ "timeout"]
      ∧ r.converted = ([⟨.vobj [("_id", .vstr "a")], [], 0⟩] : List RefGroup).length
          + ([⟨.vobj [("_id", .vstr "b")], [], 0⟩] : List RefGroup).length := by
  refine ⟨by norm_num, by simp [idOf, lookupField, jsShow], ?_, ?_⟩
  · intro u hu
    simp only [List.mem_append, List.mem_singleton] at hu
    rcases hu with h | h <;> subst h <;> simp [idOf, lookupField, jsShow]
  · exact c3_claim [⟨.vobj [("_id", .vstr "a")], [], 0⟩] [⟨.vobj [("_id", .vstr "b")], [], 0⟩]
      ⟨.vobj [("_id", .vstr "f")], [], 0⟩ "timeout" Mode.strongToWeak 10 (by norm_num)
      (fun s => if s = "f" then some "timeout" else none)
      (by simp [idOf, lookupField, jsShow])
      (by intro u hu
          simp only [List.mem_append, List.mem_singleton] at hu
          rcases hu with h | h <;> subst h <;> simp [idOf, lookupField, jsShow])

/-- C4: batching partitions the groups into consecutive batches that
are nonempty, at most batchSize long, and whose concatenation is the
original sequence; with 25 groups and batchSize 10 the batch sizes are
exactly 10, 10, 5, and when every commit succeeds the final count is
25, one increment per document. -/
theorem c4_claim (gs : List RefGroup) (batchSize : Nat) (hbs : 1 ≤ batchSize) (mode : Mode)
    (outcome : String → Option String) :
    (sliceBatches batchSize gs).flatten = gs
    ∧ (∀ b ∈ sliceBatches batchSize gs, b ≠ [] ∧ b.length ≤ batchSize)
    ∧ (gs.length = 25 → batchSize = 10 →
        (sliceBatches batchSize gs).map List.length = [10, 10, 5])
    ∧ (gs.length = 25 → (∀ u ∈ gs, outcome (idOf u.document) = none) →
        ∃ r, (convertReferences gs mode batchSize false outcome).result = some r
          ∧ r.converted = 25) := by
  refine ⟨sliceBatches_flatten batchSize gs hbs, sliceBatches_sizes batchSize gs hbs, ?_, ?_⟩
  · intro hlen hb10
    subst hb10
    have hne1 : gs ≠ [] := by
      intro h
      rw [h] at hlen
      simp at hlen
    rw [sliceBatches_cons_eq 10 (by norm_num) gs hne1]
    have hne2 : gs.drop 10 ≠ [] := by
      intro h
      have := congrArg List.length h
      simp [hlen] at this
    rw [sliceBatches_cons_eq 10 (by norm_num) _ hne2]
    have hne3 : (gs.drop 10).drop 10 ≠ [] := by
      intro h
      have := congrArg List.length h
      simp [hlen] at this
    rw [sliceBatches_cons_eq 10 (by norm_num) _ hne3]
    have hd3 : ((gs.drop 10).drop 10).drop 10 = [] := by
      apply List.eq_nil_of_length_eq_zero
      simp [hlen]
    rw [hd3]
    simp [sliceBatches, List.length_take, hlen]
  · intro hlen hok
    cases gs with
    | nil => simp at hlen
    | cons g0 rest =>
        obtain ⟨hres, hcomp, hcom⟩ :=
          convert_core (g0 :: rest) g0 rest rfl mode batchSize false outcome hbs
        refine ⟨_, hres, ?_⟩
        show ((g0 :: rest).foldl (processItem mode false outcome) ⟨0, [], 0, []⟩).converted = 25
        rw [foldl_processItem_ok mode outcome (g0 :: rest) _ hok]
        simpa using hlen

/-- C4 witness: 25 one-document groups with batchSize 10 and an
always-successful commit. -/
theorem c4_witness :
    (1 : Nat) ≤ 10
    ∧ ((sliceBatches 10 (List.replicate 25 ⟨.vobj [("_id", .vstr "d")], [], 0⟩)).flatten
        = List.replicate 25 (⟨.vobj [("_id", .vstr "d")], [], 0⟩ : RefGroup)
      ∧ (∀ b ∈ sliceBatches 10 (List.replicate 25 ⟨.vobj [("_id", .vstr "d")], [], 0⟩),
          b ≠ [] ∧ b.length ≤ 10)
      ∧ ((List.replicate 25 (⟨.vobj [("_id", .vstr "d")], [], 0⟩ : RefGroup)).length = 25 →
          (10 : Nat) = 10 →
          (sliceBatches 10 (List.replicate 25 ⟨.vobj [("_id", .vstr "d")], [], 0⟩)).map
            List.length = [10, 10, 5])
      ∧ ((List.replicate 25 (⟨.vobj [("_id", .vstr "d")], [], 0⟩ : RefGroup)).length = 25 →
          (∀ u ∈ List.replicate 25 (⟨.vobj [("_id", .vstr "d")], [], 0⟩ : RefGroup),
            (fun _ => none : String → Option String) (idOf u.document) = none) →
          ∃ r, (convertReferences (List.replicate 25 ⟨.vobj [("_id", .vstr "d")], [], 0⟩)
              Mode.strongToWeak 10 false (fun _ => none)).result = some r
            ∧ r.converted = 25)) :=
  ⟨by norm_num,
    c4_claim (List.replicate 25 ⟨.vobj [("_id", .vstr "d")], [], 0⟩) 10 (by norm_num)
      Mode.strongToWeak (fun _ => none)⟩

/-- C5: a dry run issues no commit call at all, yet its returned count
equals the number of matched groups and its space-savings estimate is
the one an all-successful non-dry run over the same matches computes. -/
theorem c5_claim (gs : List RefGroup) (mode : Mode) (batchSize : Nat) (hbs : 1 ≤ batchSize)
    (outcome : String → Option String) :
    (convertReferences gs mode batchSize true outcome).commits = []
    ∧ ∀ r, (convertReferences gs mode batchSize true outcome).result = some r →
        r.converted = gs.length
        ∧ ∃ r2, (convertReferences gs mode batchSize false (fun _ => none)).result = some r2
            ∧ r.spaceSaved = r2.spaceSaved ∧ r2.spaceSaved = spaceEstimate mode gs := by
  cases gs with
  | nil =>
      refine ⟨rfl, ?_⟩
      intro r h
      exact absurd h (by simp [convertReferences])
  | cons g0 rest =>
      obtain ⟨hres, hcomp, hcom⟩ :=
        convert_core (g0 :: rest) g0 rest rfl mode batchSize true outcome hbs
      obtain ⟨hres2, hcomp2, hcom2⟩ :=
        convert_core (g0 :: rest) g0 rest rfl mode batchSize false (fun _ => none) hbs
      constructor
      · rw [hcom, foldl_processItem_dry]
      · intro r h
        rw [hres] at h
        injection h with h
        subst h
        constructor
        · show ((g0 :: rest).foldl (processItem mode true outcome) ⟨0, [], 0, []⟩).converted = _
          rw [foldl_processItem_dry]
          simp
        · refine ⟨_, hres2, ?_, ?_⟩
          · show ((g0 :: rest).foldl (processItem mode true outcome) ⟨0, [], 0, []⟩).spaceSaved
              = ((g0 :: rest).foldl (processItem mode false (fun _ => none))
                  ⟨0, [], 0, []⟩).spaceSaved
            rw [foldl_processItem_dry,
              foldl_processItem_ok mode (fun _ => none) (g0 :: rest) _ (fun u hu => rfl)]
          · show ((g0 :: rest).foldl (processItem mode false (fun _ => none))
                ⟨0, [], 0, []⟩).spaceSaved = _
            rw [foldl_processItem_ok mode (fun _ => none) (g0 :: rest) _ (fun u hu => rfl)]
            simp

/-- C5 witness: a dry run over two groups with one occurrence each in
strong-to-weak mode. -/
theorem c5_witness :
    (1 : Nat) ≤ 10
    ∧ ((convertReferences
          [⟨.vobj [("_id", .vstr "a")], [⟨"r", "strong", .vstr "t", false, [Seg.fld "r"]⟩], 1⟩,
            ⟨.vobj [("_id", .vstr "b")], [⟨"r", "strong", .vstr "t", false, [Seg.fld "r"]⟩], 1⟩]
          Mode.strongToWeak 10 true (fun _ => none)).commits = []
      ∧ ∀ r, (convertReferences
          [⟨.vobj [("_id", .vstr "a")], [⟨"r", "strong", .vstr "t", false, [Seg.fld "r"]⟩], 1⟩,
            ⟨.vobj [("_id", .vstr "b")], [⟨"r", "strong", .vstr "t", false, [Seg.fld "r"]⟩], 1⟩]
          Mode.strongToWeak 10 true (fun _ => none)).result = some r →
          r.converted = ([⟨.vobj [("_id", .vstr "a")],
              [⟨"r", "strong", .vstr "t", false, [Seg.fld "r"]⟩], 1⟩,
            ⟨.vobj [("_id", .vstr "b")],
              [⟨"r", "strong", .vstr "t", false, [Seg.fld "r"]⟩], 1⟩] : List RefGroup).length
          ∧ ∃ r2, (convertReferences
              [⟨.vobj [("_id", .vstr "a")], [⟨"r", "strong", .vstr "t", false, [Seg.fld "r"]⟩], 1⟩,
                ⟨.vobj [("_id", .vstr "b")],
                  [⟨"r", "strong", .vstr "t", false, [Seg.fld "r"]⟩], 1⟩]
              Mode.strongToWeak 10 false (fun _ => none)).result = some r2
            ∧ r.spaceSaved = r2.spaceSaved
            ∧ r2.spaceSaved = spaceEstimate Mode.strongToWeak
                [⟨.vobj [("_id", .vstr "a")], [⟨"r", "strong", .vstr "t", false, [Seg.fld "r"]⟩], 1⟩,
                  ⟨.vobj [("_id", .vstr "b")],
                    [⟨"r", "strong", .vstr "t", false, [Seg.fld "r"]⟩], 1⟩]) :=
  ⟨by norm_num,
    c5_claim
      [⟨.vobj [("_id", .vstr "a")], [⟨"r", "strong", .vstr "t", false, [Seg.fld "r"]⟩], 1⟩,
        ⟨.vobj [("_id", .vstr "b")], [⟨"r", "strong", .vstr "t", false, [Seg.fld "r"]⟩], 1⟩]
      Mode.strongToWeak 10 (by norm_num) (fun _ => none)⟩

/-- C6: the component performs no configuration validation at all.
With the invalid cap maxDocuments = 0 the scan is not rejected: it
still builds the query with the cap interpolated and issues its fetch,
and for every maxDocuments value, valid or not, exactly one fetch is
issued.  The claim that an invalid batch size or cap is rejected before
scan or convert work begins is therefore false on the code (with
batchSize = 0 the convert loop index never advances, so the source
does not even terminate there). -/
theorem c6_claim :
    (scanForReferences (fun _ => Except.ok []) false "" "" "" 0 Mode.strongToWeak).fetchCalls
        = ["*[defined(_type)][0...0]"]
    ∧ ∀ (maxDocuments : Int) (fetch : String → Except String (List Value)),
        (scanForReferences fetch false "" "" "" maxDocuments
          Mode.strongToWeak).fetchCalls.length = 1 := by
  constructor
  · rfl
  · intro maxDocuments fetch
    unfold scanForReferences
    cases h : fetch (buildQuery false "" "" "" maxDocuments) <;> simp [h]

/-- C9: every group a scan returns has a nonempty occurrence list, and
a document on which the finder returns nothing appears in no group. -/
theorem c9_claim (fetch : String → Except String (List Value)) (useCustomQuery : Bool)
    (customGroqQuery selectedType searchQuery : String) (maxDocuments : Int) (mode : Mode) :
    (∀ g ∈ (scanForReferences fetch useCustomQuery customGroqQuery selectedType searchQuery
        maxDocuments mode).groups, g.references ≠ [])
    ∧ ∀ d, findReferences d mode "" [] = [] →
        ∀ g ∈ (scanForReferences fetch useCustomQuery customGroqQuery selectedType searchQuery
          maxDocuments mode).groups, g.document ≠ d := by
  unfold scanForReferences
  cases h : fetch (buildQuery useCustomQuery customGroqQuery selectedType searchQuery
      maxDocuments) with
  | error e => simp [h]
  | ok docs =>
      simp only [h]
      constructor
      · intro g hg
        simp only [List.mem_filterMap] at hg
        obtain ⟨d, hd, hsome⟩ := hg
        by_cases hlen : (findReferences d mode "" []).length > 0
        · rw [if_pos hlen] at hsome
          injection hsome with hsome
          subst hsome
          simp only []
          exact List.ne_nil_of_length_pos hlen
        · rw [if_neg hlen] at hsome
          cases hsome
      · intro d hempty g hg
        simp only [List.mem_filterMap] at hg
        obtain ⟨a, ha, hsome⟩ := hg
        by_cases hlen : (findReferences a mode "" []).length > 0
        · rw [if_pos hlen] at hsome
          injection hsome with hsome
          subst hsome
          intro hda
          simp only [] at hda
          subst hda
          rw [hempty] at hlen
          simp at hlen
        · rw [if_neg hlen] at hsome
          cases hsome

/-- C9 witness: the invariant evaluated on a store returning one
document with a reference and one without. -/
theorem c9_witness :
    (∀ g ∈ (scanForReferences
        (fun _ => Except.ok [.vobj [("author", strongDesc "x")], .vnull]) false "" "" "" 10
        Mode.strongToWeak).groups, g.references ≠ [])
    ∧ ∀ d, findReferences d Mode.strongToWeak "" [] = [] →
        ∀ g ∈ (scanForReferences
          (fun _ => Except.ok [.vobj [("author", strongDesc "x")], .vnull]) false "" "" "" 10
          Mode.strongToWeak).groups, g.document ≠ d :=
  c9_claim (fun _ => Except.ok [.vobj [("author", strongDesc "x")], .vnull]) false "" "" "" 10
    Mode.strongToWeak

/-- C10: convert on an empty group list returns immediately, producing
no ConversionResult and invoking onComplete zero times; on a nonempty
list onComplete is invoked exactly once, with the accumulated result.
As with the other batching theorems, batchSize is assumed to be at
least 1, since the source loop does not terminate at 0. -/
theorem c10_claim (mode : Mode) (batchSize : Nat) (hbs : 1 ≤ batchSize) (dryRun : Bool)
    (outcome : String → Option String) :
    (convertReferences [] mode batchSize dryRun outcome).result = none
    ∧ (convertReferences [] mode batchSize dryRun outcome).completeCalls = []
    ∧ ∀ (gs : List RefGroup), gs ≠ [] →
        ∃ r, (convertReferences gs mode batchSize dryRun outcome).result = some r
          ∧ (convertReferences gs mode batchSize dryRun outcome).completeCalls = [r] := by
  refine ⟨rfl, rfl, ?_⟩
  intro gs hgs
  cases gs with
  | nil => exact absurd rfl hgs
  | cons g rest => exact ⟨_, rfl, rfl⟩

/-- C10 witness: the hook discipline evaluated at a fixed
configuration with batch size 10. -/
theorem c10_witness :
    (1 : Nat) ≤ 10
    ∧ ((convertReferences [] Mode.strongToWeak 10 false (fun _ => none)).result = none
      ∧ (convertReferences [] Mode.strongToWeak 10 false (fun _ => none)).completeCalls = []
      ∧ ∀ (gs : List RefGroup), gs ≠ [] →
          ∃ r, (convertReferences gs Mode.strongToWeak 10 false (fun _ => none)).result = some r
            ∧ (convertReferences gs Mode.strongToWeak 10 false
                (fun _ => none)).completeCalls = [r]) :=
  ⟨by norm_num, c10_claim Mode.strongToWeak 10 (by norm_num) false (fun _ => none)⟩
